import Mathlib

/-!
Verification of the cooperative-cancellation and streaming-buffer core of
`src/src-tauri/src/main.rs` (a Tauri voice-chat backend).

The Rust source is shallowly embedded: shared atomics and mutex-guarded maps
become explicit state records, the streaming ingestion loop becomes a
recursive function over the list of received network chunks, and the
blocking recording session becomes a sequential trace of the telemetry
writes it performs.  Machine integers are modelled as `Int` with explicit
two's-complement wrapping (`i64wrap`) where the source uses `AtomicI64`.
-/

/-- A byte of the network stream (`u8` in the source), kept as a `Nat`
in the range 0..255. -/
abbrev Byte := Nat

/-- Bytes of an ASCII string literal, used to build concrete byte streams
(such as the SSE frames in the source's protocol). -/
def asciiBytes (s : String) : List Byte :=
  s.data.map Char.toNat

/-- The Unicode replacement character U+FFFD emitted by
`String::from_utf8_lossy` for invalid byte sequences. -/
def replacementChar : Char := Char.ofNat 0xFFFD

/-- Model of Rust's `String::from_utf8_lossy` (an external stdlib
collaborator of `handle_chat_completion_server_event`): decode UTF-8,
replacing each maximal invalid subpart with U+FFFD, never aborting. -/
def utf8LossyChars : List Nat → List Char
  | [] => []
  | b :: rest =>
    if b < 0x80 then Char.ofNat b :: utf8LossyChars rest
    else if b < 0xC2 then replacementChar :: utf8LossyChars rest
    else if b < 0xE0 then
      match rest with
      | [] => [replacementChar]
      | c :: rest2 =>
        if 0x80 ≤ c ∧ c < 0xC0 then
          Char.ofNat ((b - 0xC0) * 0x40 + (c - 0x80)) :: utf8LossyChars rest2
        else replacementChar :: utf8LossyChars (c :: rest2)
    else if b < 0xF0 then
      match rest with
      | [] => [replacementChar]
      | c :: rest2 =>
        if (if b = 0xE0 then 0xA0 ≤ c ∧ c < 0xC0
            else if b = 0xED then 0x80 ≤ c ∧ c < 0xA0
            else 0x80 ≤ c ∧ c < 0xC0) then
          match rest2 with
          | [] => [replacementChar]
          | d :: rest3 =>
            if 0x80 ≤ d ∧ d < 0xC0 then
              Char.ofNat ((b - 0xE0) * 0x1000 + (c - 0x80) * 0x40 + (d - 0x80)) ::
                utf8LossyChars rest3
            else replacementChar :: utf8LossyChars (d :: rest3)
        else replacementChar :: utf8LossyChars (c :: rest2)
    else if b < 0xF5 then
      match rest with
      | [] => [replacementChar]
      | c :: rest2 =>
        if (if b = 0xF0 then 0x90 ≤ c ∧ c < 0xC0
            else if b = 0xF4 then 0x80 ≤ c ∧ c < 0x90
            else 0x80 ≤ c ∧ c < 0xC0) then
          match rest2 with
          | [] => [replacementChar]
          | d :: rest3 =>
            if 0x80 ≤ d ∧ d < 0xC0 then
              match rest3 with
              | [] => [replacementChar]
              | e :: rest4 =>
                if 0x80 ≤ e ∧ e < 0xC0 then
                  Char.ofNat ((b - 0xF0) * 0x40000 + (c - 0x80) * 0x1000 +
                      (d - 0x80) * 0x40 + (e - 0x80)) :: utf8LossyChars rest4
                else replacementChar :: utf8LossyChars (e :: rest4)
            else replacementChar :: utf8LossyChars (d :: rest3)
        else replacementChar :: utf8LossyChars (c :: rest2)
    else replacementChar :: utf8LossyChars rest

/-- `String::from_utf8_lossy` as a `String`-producing function. -/
def utf8Lossy (bs : List Nat) : String :=
  String.mk (utf8LossyChars bs)

/-!
## The per-request event buffer and cancellation set

`CHAT_COMPLETION_RESPONSE : Mutex<HashMap<u64, Vec<String>>>` is modelled as
an association list with unique keys (`response`), and
`CHAT_COMPLETION_CANCELED : Mutex<HashSet<u64>>` as a duplicate-free list
(`canceled`).
-/

/-- The process-wide chat-completion state: the per-request event buffer map
and the cancellation set. -/
structure ChatState where
  response : List (Nat × List String)
  canceled : List Nat
  deriving Repr, DecidableEq

/-- `HashMap::get`-style lookup in the association list. -/
def lookupQueue : List (Nat × List String) → Nat → Option (List String)
  | [], _ => none
  | (k, v) :: rest, id => if k = id then some v else lookupQueue rest id

/-- Store `v` under key `id`, replacing an existing binding or inserting a
new one (the effect of `entry(id)` followed by writing the entry). -/
def setQueue : List (Nat × List String) → Nat → List String → List (Nat × List String)
  | [], id, v => [(id, v)]
  | (k, w) :: rest, id, v =>
    if k = id then (id, v) :: rest else (k, w) :: setQueue rest id v

/-- `entry(request_id).or_insert(vec![]).push(e)` on the response map. -/
def pushEvent (m : List (Nat × List String)) (id : Nat) (e : String) :
    List (Nat × List String) :=
  setQueue m id ((lookupQueue m id).getD [] ++ [e])

/-- `HashSet::insert` on the cancellation set. -/
def insertSet (l : List Nat) (x : Nat) : List Nat :=
  if x ∈ l then l else l ++ [x]

/-- `handle_chat_completion_server_event` (main.rs:597-606): a frame that
starts with `data: ` but not with `data: [DONE]` has the field prefix
stripped, is decoded lossily, and is appended to the request's queue;
every other frame is ignored. -/
def handle_chat_completion_server_event (request_id : Nat) (buf : List Byte)
    (s : ChatState) : ChatState :=
  if ¬ (asciiBytes "data: [DONE]").isPrefixOf buf ∧ (asciiBytes "data: ").isPrefixOf buf then
    { s with response := pushEvent s.response request_id (utf8Lossy (buf.drop 6)) }
  else s

/-- `get_chat_completion` (main.rs:665-672): `entry(request_id).or_default()`
creates the queue if absent, its contents are cloned and returned, and the
stored queue is cleared. -/
def get_chat_completion (request_id : Nat) (s : ChatState) :
    List String × ChatState :=
  ((lookupQueue s.response request_id).getD [],
    { s with response := setQueue s.response request_id [] })

/-- `stop_all_chat_completions` (main.rs:608-614): insert every key of the
response map into the cancellation set. -/
def stop_all_chat_completions (s : ChatState) : ChatState :=
  { s with canceled := s.response.foldl (fun acc kv => insertSet acc kv.1) s.canceled }

/-- The queue currently buffered for `id` (empty when the key is absent). -/
def queueOf (s : ChatState) (id : Nat) : List String :=
  (lookupQueue s.response id).getD []

/-- One append through the handler's push path
(`entry(id).or_insert(vec![]).push(e)`). -/
def appendEvent (id : Nat) (e : String) (s : ChatState) : ChatState :=
  { s with response := pushEvent s.response id e }

/-- A whole sequence of appends for one request id, in order. -/
def appendEvents (id : Nat) (es : List String) (s : ChatState) : ChatState :=
  es.foldl (fun t e => appendEvent id e t) s

/-!
## The streaming ingestion loop of `start_chat_completion`
-/

/-- The loop-local state of `start_chat_completion` (main.rs:633-634)
together with the shared chat state it mutates: the accumulation buffer
`buf`, the `is_prev_char_newline` flag, and the shared maps. -/
structure IngestSt where
  buf : List Byte
  flagPrevNewline : Bool
  chat : ChatState
  deriving Repr, DecidableEq

/-- One iteration of the inner `for value in chunk` loop
(main.rs:643-654): two consecutive `\n` bytes end a frame, which is handed
to `handle_chat_completion_server_event`; otherwise the byte is pushed. -/
def processByte (request_id : Nat) (st : IngestSt) (value : Byte) : IngestSt :=
  let newline := value == 10
  if newline && st.flagPrevNewline then
    { buf := [],
      flagPrevNewline := false,
      chat := handle_chat_completion_server_event request_id st.buf st.chat }
  else
    { st with buf := st.buf ++ [value], flagPrevNewline := newline }

/-- Processing one received network chunk byte by byte. -/
def processChunk (request_id : Nat) (st : IngestSt) (chunk : List Byte) : IngestSt :=
  chunk.foldl (processByte request_id) st

/-- The end-of-stream epilogue (main.rs:660-661): the residual buffer is
handed to the frame handler once more, then cleared. -/
def flushResidual (request_id : Nat) (st : IngestSt) : IngestSt :=
  { st with
    chat := handle_chat_completion_server_event request_id st.buf st.chat,
    buf := [] }

/-- The `while let Some(chunk) = res.chunk().await?` loop of
`start_chat_completion` (main.rs:642-662): each chunk is processed byte by
byte, then the cancellation set is consulted; if the request id is present
the function returns `Ok(())` at once (no residual flush), otherwise the
next chunk is awaited; when the stream ends the residue is flushed. -/
def ingestChunks (request_id : Nat) (st : IngestSt) : List (List Byte) → IngestSt
  | [] => flushResidual request_id st
  | chunk :: rest =>
    let st2 := processChunk request_id st chunk
    if request_id ∈ st2.chat.canceled then st2
    else ingestChunks request_id st2 rest

/-- The ingestion loop's initial local state (empty buffer, flag down). -/
def initIngest (chat : ChatState) : IngestSt :=
  ⟨[], false, chat⟩

/-- A byte stream delivered one byte per network chunk. -/
def perByte (bs : List Byte) : List (List Byte) :=
  bs.map (fun b => [b])

/-- A variant ingestion loop written from the spec's words, for comparison
with `ingestChunks`.  Modelled from the spec: the cancellation set is
"checked by the streaming ingestion loop only at frame boundaries (never
mid-frame)"; once observed, ingestion stops consuming further bytes and
returns successfully. -/
def ingestFrameChecked (request_id : Nat) (st : IngestSt) : List Byte → IngestSt
  | [] => flushResidual request_id st
  | b :: bs =>
    let boundary := (b == 10) && st.flagPrevNewline
    let st2 := processByte request_id st b
    if boundary = true ∧ request_id ∈ st2.chat.canceled then st2
    else ingestFrameChecked request_id st2 bs

/-! ## Lemmas about the event buffer -/

theorem lookupQueue_setQueue_self (m : List (Nat × List String)) (id : Nat)
    (v : List String) : lookupQueue (setQueue m id v) id = some v := by
  induction m with
  | nil => simp [setQueue, lookupQueue]
  | cons kv rest ih =>
    obtain ⟨k, w⟩ := kv
    by_cases h : k = id <;> simp [setQueue, lookupQueue, h, ih]

theorem queueOf_appendEvent_self (id : Nat) (e : String) (s : ChatState) :
    queueOf (appendEvent id e s) id = queueOf s id ++ [e] := by
  simp [queueOf, appendEvent, pushEvent, lookupQueue_setQueue_self]

theorem queueOf_appendEvents (id : Nat) (es : List String) (s : ChatState) :
    queueOf (appendEvents id es s) id = queueOf s id ++ es := by
  induction es generalizing s with
  | nil => simp [appendEvents]
  | cons e es ih =>
    show queueOf (appendEvents id es (appendEvent id e s)) id = _
    rw [ih, queueOf_appendEvent_self, List.append_assoc]
    rfl

theorem get_chat_completion_fst (id : Nat) (s : ChatState) :
    (get_chat_completion id s).fst = queueOf s id := rfl

theorem queueOf_get_chat_completion_snd (id : Nat) (s : ChatState) :
    queueOf (get_chat_completion id s).snd id = [] := by
  simp [queueOf, get_chat_completion, lookupQueue_setQueue_self]

/-- C1: drain (`get_chat_completion`) returns exactly the events buffered
for the id in append order, resets the queue (an immediate second drain
returns `[]`), and events appended after a drain are returned exactly once,
in order, by the next drain. -/
theorem claim_C1 (id : Nat) (s : ChatState) (es es2 : List String) :
    (get_chat_completion id (appendEvents id es s)).fst = queueOf s id ++ es
    ∧ queueOf (get_chat_completion id (appendEvents id es s)).snd id = []
    ∧ (get_chat_completion id ((get_chat_completion id (appendEvents id es s)).snd)).fst = []
    ∧ (get_chat_completion id (appendEvents id es2 ((get_chat_completion id s).snd))).fst = es2 := by
  refine ⟨?_, ?_, ?_, ?_⟩
  · rw [get_chat_completion_fst, queueOf_appendEvents]
  · exact queueOf_get_chat_completion_snd id _
  · rw [get_chat_completion_fst, queueOf_get_chat_completion_snd]
  · rw [get_chat_completion_fst, queueOf_appendEvents, queueOf_get_chat_completion_snd,
      List.nil_append]

/-! ## Lemmas about the cancellation set -/

theorem mem_insertSet_self (l : List Nat) (x : Nat) : x ∈ insertSet l x := by
  by_cases h : x ∈ l <;> simp [insertSet, h]

theorem mem_insertSet_of_mem (l : List Nat) (x y : Nat) (h : y ∈ l) :
    y ∈ insertSet l x := by
  by_cases hx : x ∈ l <;> simp [insertSet, hx, h]

theorem mem_foldl_insertSet (l : List (Nat × List String)) (acc : List Nat)
    (id : Nat) (h : (∃ v, (id, v) ∈ l) ∨ id ∈ acc) :
    id ∈ l.foldl (fun a kv => insertSet a kv.1) acc := by
  induction l generalizing acc with
  | nil =>
    rcases h with ⟨v, hv⟩ | h
    · exact absurd hv (List.not_mem_nil _)
    · exact h
  | cons kv rest ih =>
    rcases h with ⟨v, hv⟩ | h
    · rcases List.mem_cons.mp hv with heq | hmem
      · refine ih _ (Or.inr ?_)
        rw [show id = kv.1 from congrArg Prod.fst heq]
        exact mem_insertSet_self _ _
      · exact ih _ (Or.inl ⟨v, hmem⟩)
    · exact ih _ (Or.inr (mem_insertSet_of_mem _ _ _ h))

theorem mem_setQueue_self (m : List (Nat × List String)) (id : Nat)
    (v : List String) : (id, v) ∈ setQueue m id v := by
  induction m with
  | nil => simp [setQueue]
  | cons kv rest ih =>
    obtain ⟨k, w⟩ := kv
    by_cases h : k = id <;> simp [setQueue, h, ih]

/-- C10: draining a request id that was never appended to nor drained
succeeds with the empty sequence, and as a side effect creates an empty
queue entry for the id, which a subsequent `stop_all_chat_completions`
then marks canceled. -/
theorem claim_C10 (id : Nat) (s : ChatState)
    (h : lookupQueue s.response id = none) :
    (get_chat_completion id s).fst = []
    ∧ lookupQueue (get_chat_completion id s).snd.response id = some []
    ∧ id ∈ (stop_all_chat_completions (get_chat_completion id s).snd).canceled := by
  refine ⟨?_, ?_, ?_⟩
  · rw [get_chat_completion_fst, queueOf, h]
    rfl
  · exact lookupQueue_setQueue_self _ _ _
  · exact mem_foldl_insertSet _ _ _ (Or.inl ⟨[], mem_setQueue_self _ _ _⟩)

/-- Witness for `claim_C10` at request id 5 and the empty initial state. -/
theorem claim_C10_witness :
    lookupQueue (ChatState.mk [] []).response 5 = none
    ∧ ((get_chat_completion 5 ⟨[], []⟩).fst = []
      ∧ lookupQueue (get_chat_completion 5 ⟨[], []⟩).snd.response 5 = some []
      ∧ 5 ∈ (stop_all_chat_completions (get_chat_completion 5 ⟨[], []⟩).snd).canceled) :=
  ⟨rfl, claim_C10 5 ⟨[], []⟩ rfl⟩

/-! ## Lemmas about the ingestion loop -/

theorem canceled_handle (request_id : Nat) (buf : List Byte) (s : ChatState) :
    (handle_chat_completion_server_event request_id buf s).canceled = s.canceled := by
  unfold handle_chat_completion_server_event
  split <;> rfl

theorem canceled_processByte (request_id : Nat) (st : IngestSt) (b : Byte) :
    (processByte request_id st b).chat.canceled = st.chat.canceled := by
  simp only [processByte]
  split
  · exact canceled_handle _ _ _
  · rfl

theorem canceled_processChunk (request_id : Nat) (st : IngestSt) (c : List Byte) :
    (processChunk request_id st c).chat.canceled = st.chat.canceled := by
  induction c generalizing st with
  | nil => rfl
  | cons b bs ih =>
    show (processChunk request_id (processByte request_id st b) bs).chat.canceled = _
    rw [ih, canceled_processByte]

/-- When the request id is never in the cancellation set, the chunked
ingestion loop is insensitive to chunk boundaries: it is byte-wise
processing of the concatenated stream followed by the end-of-stream
flush of the residual buffer. -/
theorem ingestChunks_join (request_id : Nat) (chunks : List (List Byte))
    (st : IngestSt) (h : request_id ∉ st.chat.canceled) :
    ingestChunks request_id st chunks =
      flushResidual request_id (processChunk request_id st chunks.flatten) := by
  induction chunks generalizing st with
  | nil => rfl
  | cons c rest ih =>
    show ingestChunks request_id st (c :: rest) = _
    rw [ingestChunks]
    rw [if_neg (by rw [canceled_processChunk]; exact h)]
    rw [ih _ (by rw [canceled_processChunk]; exact h)]
    rw [List.flatten_cons, processChunk, processChunk, processChunk, List.foldl_append]

theorem queueOf_handle_extend (request_id : Nat) (buf : List Byte) (s : ChatState) :
    ∃ t, queueOf (handle_chat_completion_server_event request_id buf s) request_id
      = queueOf s request_id ++ t := by
  unfold handle_chat_completion_server_event
  split
  · exact ⟨[utf8Lossy (buf.drop 6)],
      by simp [queueOf, pushEvent, lookupQueue_setQueue_self]⟩
  · exact ⟨[], by simp⟩

theorem queueOf_processByte_extend (request_id : Nat) (st : IngestSt) (b : Byte) :
    ∃ t, queueOf (processByte request_id st b).chat request_id
      = queueOf st.chat request_id ++ t := by
  simp only [processByte]
  split
  · exact queueOf_handle_extend _ _ _
  · exact ⟨[], by simp⟩

theorem queueOf_processChunk_extend (request_id : Nat) (st : IngestSt) (c : List Byte) :
    ∃ t, queueOf (processChunk request_id st c).chat request_id
      = queueOf st.chat request_id ++ t := by
  induction c generalizing st with
  | nil => exact ⟨[], by simp [processChunk]⟩
  | cons b bs ih =>
    obtain ⟨t1, h1⟩ := queueOf_processByte_extend request_id st b
    obtain ⟨t2, h2⟩ := ih (processByte request_id st b)
    exact ⟨t1 ++ t2, by
      show queueOf (processChunk request_id (processByte request_id st b) bs).chat _ = _
      rw [h2, h1, List.append_assoc]⟩

/-- C2 (amended): feeding the bytes of `data: hello\n\ndata: [DONE]\n\n`
to the ingestion loop, split across arbitrary chunk boundaries, appends
exactly one event for the request id, and the terminal `[DONE]` frame
appends nothing; the event is `"hello\n"` — the first byte of the
blank-line pair is retained as payload, so the event is not the bare
string `"hello"`. -/
theorem claim_C2 (id : Nat) (chunks : List (List Byte))
    (h : chunks.flatten = asciiBytes "data: hello\n\ndata: [DONE]\n\n") :
    (ingestChunks id (initIngest ⟨[], []⟩) chunks).chat = ⟨[(id, ["hello\n"])], []⟩ := by
  rw [ingestChunks_join id chunks _ (by simp [initIngest])]
  rw [h]
  simp [initIngest, processChunk, processByte, flushResidual, asciiBytes,
    handle_chat_completion_server_event, pushEvent, lookupQueue, setQueue,
    utf8Lossy, utf8LossyChars, replacementChar]

/-- Counterexample to C2 as stated: the single event delivered for the
byte sequence `data: hello\n\ndata: [DONE]\n\n` fed one byte at a time is
`"hello\n"`, which differs from `"hello"`. -/
theorem claim_C2_counterexample :
    (ingestChunks 1 (initIngest ⟨[], []⟩) (perByte (asciiBytes "data: hello\n\ndata: [DONE]\n\n"))).chat.response
      = [(1, ["hello\n"])]
    ∧ "hello\n" ≠ "hello" :=
  ⟨by decide, by decide⟩

/-- Witness for `claim_C2`: the one-byte-per-chunk split of the stream. -/
theorem claim_C2_witness :
    (perByte (asciiBytes "data: hello\n\ndata: [DONE]\n\n")).flatten
        = asciiBytes "data: hello\n\ndata: [DONE]\n\n"
    ∧ (ingestChunks 1 (initIngest ⟨[], []⟩) (perByte (asciiBytes "data: hello\n\ndata: [DONE]\n\n"))).chat
        = ⟨[(1, ["hello\n"])], []⟩ :=
  ⟨by decide, claim_C2 1 _ (by decide)⟩

/-- C3: for every byte stream (any chunking) that is never canceled, the
loop ends by processing the residual accumulation buffer as one final
frame through the handler (`flushResidual`), even without a trailing blank
line; in particular `data: partial` followed by end-of-stream still
delivers the event `"partial"`. -/
theorem claim_C3 (id : Nat) (chunks : List (List Byte)) (st : IngestSt)
    (h : id ∉ st.chat.canceled) :
    ingestChunks id st chunks = flushResidual id (processChunk id st chunks.flatten)
    ∧ (ingestChunks id (initIngest ⟨[], []⟩) (perByte (asciiBytes "data: partial"))).chat.response
      = [(id, ["partial"])] := by
  refine ⟨ingestChunks_join id chunks st h, ?_⟩
  simp [initIngest, perByte, ingestChunks, processChunk, processByte, flushResidual, asciiBytes,
    handle_chat_completion_server_event, pushEvent, lookupQueue, setQueue,
    utf8Lossy, utf8LossyChars, replacementChar]

/-- Witness for `claim_C3` at request id 2. -/
theorem claim_C3_witness :
    (2 ∉ (initIngest ⟨[], []⟩).chat.canceled)
    ∧ (ingestChunks 2 (initIngest ⟨[], []⟩) [[10]]
          = flushResidual 2 (processChunk 2 (initIngest ⟨[], []⟩) ([[10]] : List (List Byte)).flatten)
      ∧ (ingestChunks 2 (initIngest ⟨[], []⟩) (perByte (asciiBytes "data: partial"))).chat.response
          = [(2, ["partial"])]) :=
  ⟨by decide, claim_C3 2 [[10]] (initIngest ⟨[], []⟩) (by decide)⟩

/-- C7 (amended): once the request id is in the cancellation set, the
ingestion loop stops right after the network chunk it is currently
processing — a chunk boundary, which may fall mid-frame — consumes no
further chunks, returns normally without flushing the partial frame, and
every already-buffered, undelivered event is still returned by a final
drain. -/
theorem claim_C7 (id : Nat) (st : IngestSt) (c : List Byte) (rest : List (List Byte))
    (h : id ∈ st.chat.canceled) :
    ingestChunks id st (c :: rest) = processChunk id st c
    ∧ ∃ t, queueOf (ingestChunks id st (c :: rest)).chat id = queueOf st.chat id ++ t
        ∧ (get_chat_completion id (ingestChunks id st (c :: rest)).chat).fst
            = queueOf st.chat id ++ t := by
  have heq : ingestChunks id st (c :: rest) = processChunk id st c := by
    simp only [ingestChunks]
    rw [if_pos (by rw [canceled_processChunk]; exact h)]
  obtain ⟨t, ht⟩ := queueOf_processChunk_extend id st c
  exact ⟨heq, t, by rw [heq]; exact ht, by rw [get_chat_completion_fst, heq]; exact ht⟩

/-- Counterexample to C7 as stated: with request 9 canceled before the
stream starts, a single chunk carrying two complete frames is processed
in full — both events are appended — so cancellation was not observed at
the first frame boundary; a loop that did check at frame boundaries
(`ingestFrameChecked`, written from the spec's words) appends only the
first event. -/
theorem claim_C7_counterexample :
    (ingestChunks 9 (initIngest ⟨[], [9]⟩) [asciiBytes "data: a\n\ndata: b\n\n"]).chat.response
      = [(9, ["a\n", "b\n"])]
    ∧ (ingestFrameChecked 9 (initIngest ⟨[], [9]⟩) (asciiBytes "data: a\n\ndata: b\n\n")).chat.response
      = [(9, ["a\n"])]
    ∧ (["a\n", "b\n"] : List String) ≠ ["a\n"] :=
  ⟨by decide, by decide, by decide⟩

/-- Witness for `claim_C7`: request 2 already canceled, one buffered event. -/
theorem claim_C7_witness :
    2 ∈ (IngestSt.mk [] false ⟨[(2, ["old"])], [2]⟩).chat.canceled
    ∧ (ingestChunks 2 (IngestSt.mk [] false ⟨[(2, ["old"])], [2]⟩) (asciiBytes "data: x\n\n" :: [[65]])
          = processChunk 2 (IngestSt.mk [] false ⟨[(2, ["old"])], [2]⟩) (asciiBytes "data: x\n\n")
      ∧ ∃ t, queueOf (ingestChunks 2 (IngestSt.mk [] false ⟨[(2, ["old"])], [2]⟩) (asciiBytes "data: x\n\n" :: [[65]])).chat 2
              = queueOf (IngestSt.mk [] false ⟨[(2, ["old"])], [2]⟩).chat 2 ++ t
          ∧ (get_chat_completion 2 (ingestChunks 2 (IngestSt.mk [] false ⟨[(2, ["old"])], [2]⟩) (asciiBytes "data: x\n\n" :: [[65]])).chat).fst
              = queueOf (IngestSt.mk [] false ⟨[(2, ["old"])], [2]⟩).chat 2 ++ t) :=
  ⟨by decide, claim_C7 2 (IngestSt.mk [] false ⟨[(2, ["old"])], [2]⟩) (asciiBytes "data: x\n\n") [[65]] (by decide)⟩

/-- C8 (amended): `stop_all_chat_completions` marks exactly the ids that
are present as keys of the event-buffer map (ids that have had at least
one event appended or one drain); existing cancellation marks are kept
and the buffered events themselves are untouched. -/
theorem claim_C8 (s : ChatState) (id : Nat) :
    ((∃ v, (id, v) ∈ s.response) → id ∈ (stop_all_chat_completions s).canceled)
    ∧ (id ∈ s.canceled → id ∈ (stop_all_chat_completions s).canceled)
    ∧ (stop_all_chat_completions s).response = s.response := by
  refine ⟨?_, ?_, rfl⟩
  · intro hv
    exact mem_foldl_insertSet _ _ _ (Or.inl hv)
  · intro hm
    exact mem_foldl_insertSet _ _ _ (Or.inr hm)

/-- Counterexample to C8 as stated: request 7 has been started and its
first partial frame `data: h` has been ingested, but no frame has
completed, so its id has no buffer entry; `stop_all_chat_completions`
then leaves the cancellation set empty — the outstanding id 7 is not
marked — and the ingestion of request 7 continues to completion and
still delivers its event afterwards. -/
theorem claim_C8_counterexample :
    stop_all_chat_completions ((processChunk 7 (initIngest ⟨[], []⟩) (asciiBytes "data: h")).chat)
      = ⟨[], []⟩
    ∧ 7 ∉ (stop_all_chat_completions ((processChunk 7 (initIngest ⟨[], []⟩) (asciiBytes "data: h")).chat)).canceled
    ∧ (ingestChunks 7
        { processChunk 7 (initIngest ⟨[], []⟩) (asciiBytes "data: h") with
          chat := stop_all_chat_completions ((processChunk 7 (initIngest ⟨[], []⟩) (asciiBytes "data: h")).chat) }
        [asciiBytes "ello\n\n"]).chat.response = [(7, ["hello\n"])] :=
  ⟨by decide, by decide, by decide⟩

/-- Witness for `claim_C8`: an id with one buffered event is marked. -/
theorem claim_C8_witness :
    (∃ v, ((3 : Nat), v) ∈ (ChatState.mk [(3, ["x"])] []).response)
    ∧ 3 ∈ (stop_all_chat_completions ⟨[(3, ["x"])], []⟩).canceled :=
  ⟨⟨["x"], by decide⟩, (claim_C8 ⟨[(3, ["x"])], []⟩ 3).1 ⟨["x"], by decide⟩⟩

/-!
## The recording generation counter and cancellation marker

`RECORDING_COUNTER : AtomicI64` and `RECORDING_CANCELED : AtomicI64`
(main.rs:442-443).  `fetch_add` on a Rust atomic wraps on overflow, so the
counter is an `Int` reduced by two's-complement wrapping at 64 bits.
-/

/-- Two's-complement wrapping of an `Int` into the `i64` range
`[-2^63, 2^63)`. -/
def i64wrap (x : Int) : Int :=
  (x + 9223372036854775808) % 18446744073709551616 - 9223372036854775808

/-- The recording-side shared state: the generation counter
`RECORDING_COUNTER` (starts at 0) and the cancellation marker
`RECORDING_CANCELED` (starts at -1). -/
structure RecState where
  counter : Int
  canceled : Int
  deriving Repr, DecidableEq

/-- The state at process start (main.rs:442-443). -/
def initRecState : RecState := ⟨0, -1⟩

/-- `stop_listening` (main.rs:445-448): `RECORDING_COUNTER.fetch_add(1)`. -/
def stop_listening (s : RecState) : RecState :=
  { s with counter := i64wrap (s.counter + 1) }

/-- `cancel_listening` (main.rs:450-456): stores the value returned by
`RECORDING_COUNTER.fetch_add(1)` — the pre-increment counter — into
`RECORDING_CANCELED`. -/
def cancel_listening (s : RecState) : RecState :=
  ⟨i64wrap (s.counter + 1), s.counter⟩

/-- The token mint of `start_listening` (main.rs:478):
`precedence = RECORDING_COUNTER.fetch_add(1) + 1`, the post-increment
counter value. -/
def start_listening_begin (s : RecState) : Int × RecState :=
  (i64wrap (s.counter + 1), { s with counter := i64wrap (s.counter + 1) })

/-- The decision taken after the capture worker exits (main.rs:548-550):
`precedence <= RECORDING_CANCELED` makes the command return `""` without
issuing the transcription request; otherwise the transcript is returned. -/
def session_result (precedence : Int) (s : RecState) (transcript : String) : String :=
  if precedence ≤ s.canceled then "" else transcript

/-- Whether the transcription request is issued at all for a finished
session (the negation of the skip test at main.rs:548). -/
def session_transcribes (precedence : Int) (s : RecState) : Bool :=
  !(decide (precedence ≤ s.canceled))

/-!
## The abstract begin/force-stop action model of one resource class (C4)
-/

/-- One action on the recording class: `begin` is `start_listening`'s
`fetch_add(1) + 1` (mints the new counter value as a token), `force_stop`
is `stop_listening`'s bare `fetch_add(1)`. -/
inductive RecAct where
  | begin
  | force_stop
  deriving Repr, DecidableEq

/-- Effect of one action on (counter, minted tokens). -/
def recStep : Int × List Int → RecAct → Int × List Int
  | (c, ts), RecAct.begin => (i64wrap (c + 1), ts ++ [i64wrap (c + 1)])
  | (c, ts), RecAct.force_stop => (i64wrap (c + 1), ts)

/-- Run a sequence of actions from process start (counter 0, no tokens). -/
def recRun (acts : List RecAct) : Int × List Int :=
  acts.foldl recStep (0, [])

theorem i64wrap_eq_self {x : Int} (h1 : -9223372036854775808 ≤ x)
    (h2 : x < 9223372036854775808) : i64wrap x = x := by
  unfold i64wrap; omega

theorem i64wrap_i64wrap_add (x y : Int) :
    i64wrap (i64wrap x + y) = i64wrap (x + y) := by
  unfold i64wrap; omega

theorem recStep_begin (p : Int × List Int) :
    recStep p RecAct.begin = (i64wrap (p.1 + 1), p.2 ++ [i64wrap (p.1 + 1)]) := by
  cases p; rfl

theorem recStep_stop (p : Int × List Int) :
    recStep p RecAct.force_stop = (i64wrap (p.1 + 1), p.2) := by
  cases p; rfl

theorem recRun_append (acts : List RecAct) (a : RecAct) :
    recRun (acts ++ [a]) = recStep (recRun acts) a := by
  unfold recRun; rw [List.foldl_append]; rfl

/-- Right-to-left invariant of a begin/force-stop run shorter than 2^63
actions: the counter equals the number of actions, every minted token lies
in [1, length], and the current counter value occurs among the tokens
exactly when the last action was a `begin` (and then as the last-minted
token). -/
theorem recRun_inv (acts : List RecAct)
    (h : (acts.length : Int) < 9223372036854775808) :
    (recRun acts).fst = acts.length
    ∧ (∀ t ∈ (recRun acts).snd, 1 ≤ t ∧ t ≤ (acts.length : Int))
    ∧ ((recRun acts).snd.count ((acts.length : Int))
        = if acts.getLast? = some RecAct.begin then 1 else 0)
    ∧ (acts.getLast? = some RecAct.begin →
        (recRun acts).snd.getLast? = some (acts.length : Int)) := by
  induction acts using List.reverseRecOn with
  | nil => simp [recRun]
  | append_singleton as a ih =>
    have hlen : ((as ++ [a]).length : Int) = (as.length : Int) + 1 := by
      simp
    have h' : (as.length : Int) < 9223372036854775808 := by omega
    obtain ⟨ih1, ih2, ih3, ih4⟩ := ih h'
    have hw : i64wrap ((as.length : Int) + 1) = (as.length : Int) + 1 :=
      i64wrap_eq_self (by omega) (by omega)
    cases a with
    | begin =>
      rw [recRun_append, recStep_begin, ih1]
      refine ⟨by simp [hw], ?_, ?_, ?_⟩
      · intro t ht
        rcases List.mem_append.mp ht with hmem | hmem
        · have := ih2 t hmem
          constructor
          · exact this.1
          · omega
        · rw [List.mem_singleton.mp hmem, hw]
          constructor
          · omega
          · omega
      · rw [List.getLast?_concat, if_pos rfl, hlen, hw, List.count_append]
        have hz : ((as.length : Int) + 1) ∉ (recRun as).snd := by
          intro hmem
          have := ih2 _ hmem
          omega
        simp [List.count_eq_zero.mpr hz]
      · intro _
        rw [hw, List.getLast?_concat, hlen]
    | force_stop =>
      rw [recRun_append, recStep_stop, ih1]
      refine ⟨by simp [hw], ?_, ?_, ?_⟩
      · intro t ht
        have := ih2 t ht
        constructor
        · exact this.1
        · omega
      · rw [List.getLast?_concat, if_neg (by simp), hlen, hw]
        have hz : ((as.length : Int) + 1) ∉ (recRun as).snd := by
          intro hmem
          have := ih2 _ hmem
          omega
        simp [List.count_eq_zero.mpr hz]
      · intro hcontra
        rw [List.getLast?_concat] at hcontra
        simp at hcontra

/-- C4 (amended): for every sequence of fewer than 2^63 begin/force_stop
actions from counter 0, each action increments the counter exactly once
(counter = number of actions), the counter is monotonically non-decreasing
over prefixes, at most one outstanding token equals the live counter, that
token is exactly the one minted by the last begin, and no token equals the
counter when the last action was a force_stop. -/
theorem claim_C4 (acts : List RecAct)
    (h : (acts.length : Int) < 9223372036854775808) :
    (recRun acts).fst = acts.length
    ∧ (∀ i j, i ≤ j → j ≤ acts.length →
        (recRun (acts.take i)).fst ≤ (recRun (acts.take j)).fst)
    ∧ (recRun acts).snd.count ((recRun acts).fst) ≤ 1
    ∧ (acts.getLast? = some RecAct.begin →
        (recRun acts).snd.count ((recRun acts).fst) = 1
        ∧ (recRun acts).snd.getLast? = some ((recRun acts).fst))
    ∧ (acts.getLast? = some RecAct.force_stop →
        (recRun acts).snd.count ((recRun acts).fst) = 0) := by
  obtain ⟨h1, h2, h3, h4⟩ := recRun_inv acts h
  have hmono : ∀ i j : Nat, i ≤ j → j ≤ acts.length →
      (recRun (acts.take i)).fst ≤ (recRun (acts.take j)).fst := by
    intro i j hij hj
    have hi' : ((acts.take i).length : Int) < 9223372036854775808 := by
      have := List.length_take_le i acts
      omega
    have hj' : ((acts.take j).length : Int) < 9223372036854775808 := by
      have := List.length_take_le j acts
      omega
    rw [(recRun_inv _ hi').1, (recRun_inv _ hj').1]
    have : (acts.take i).length = min i acts.length := List.length_take i acts
    have : (acts.take j).length = min j acts.length := List.length_take j acts
    simp_all
  refine ⟨h1, hmono, ?_, ?_, ?_⟩
  · rw [h1, h3]
    split <;> omega
  · intro hlast
    rw [h1, h3, if_pos hlast]
    exact ⟨rfl, h4 hlast⟩
  · intro hlast
    rw [h1, h3, if_neg (by simp [hlast])]

theorem recRun_replicate_stop (n : Nat) :
    (recRun (List.replicate n RecAct.force_stop)).fst = i64wrap n := by
  induction n with
  | zero => decide
  | succ n ih =>
    rw [List.replicate_succ', recRun_append, recStep_stop, ih, i64wrap_i64wrap_add]
    push_cast
    rfl

/-- Counterexample to C4 as stated (over every sequence): `fetch_add` on
the `AtomicI64` counter wraps, so after 2^63 force_stop actions the
counter has wrapped to -2^63, strictly below its value one action
earlier — the counter is not monotonically non-decreasing (nor
non-negative) on that sequence. -/
theorem claim_C4_counterexample :
    List.replicate 9223372036854775808 RecAct.force_stop
      = List.replicate 9223372036854775807 RecAct.force_stop ++ [RecAct.force_stop]
    ∧ (recRun (List.replicate 9223372036854775807 RecAct.force_stop)).fst = 9223372036854775807
    ∧ (recRun (List.replicate 9223372036854775808 RecAct.force_stop)).fst = -9223372036854775808
    ∧ ¬((recRun (List.replicate 9223372036854775807 RecAct.force_stop)).fst
        ≤ (recRun (List.replicate 9223372036854775808 RecAct.force_stop)).fst) := by
  have e1 := recRun_replicate_stop 9223372036854775807
  have e2 := recRun_replicate_stop 9223372036854775808
  have v1 : i64wrap ((9223372036854775807 : Nat) : Int) = 9223372036854775807 := by
    unfold i64wrap; omega
  have v2 : i64wrap ((9223372036854775808 : Nat) : Int) = -9223372036854775808 := by
    unfold i64wrap; omega
  rw [v1] at e1
  rw [v2] at e2
  refine ⟨?_, e1, e2, ?_⟩
  · have : (9223372036854775808 : Nat) = 9223372036854775807 + 1 := by norm_num
    rw [this, List.replicate_succ']
  · rw [e1, e2]
    omega

/-- Witness for `claim_C4` on the sequence [begin, force_stop, begin]. -/
theorem claim_C4_witness :
    ((([RecAct.begin, RecAct.force_stop, RecAct.begin] : List RecAct).length : Int)
        < 9223372036854775808)
    ∧ ((recRun [RecAct.begin, RecAct.force_stop, RecAct.begin]).fst
          = ([RecAct.begin, RecAct.force_stop, RecAct.begin] : List RecAct).length
      ∧ (∀ i j, i ≤ j → j ≤ ([RecAct.begin, RecAct.force_stop, RecAct.begin] : List RecAct).length →
          (recRun (([RecAct.begin, RecAct.force_stop, RecAct.begin] : List RecAct).take i)).fst
            ≤ (recRun (([RecAct.begin, RecAct.force_stop, RecAct.begin] : List RecAct).take j)).fst)
      ∧ (recRun [RecAct.begin, RecAct.force_stop, RecAct.begin]).snd.count
          ((recRun [RecAct.begin, RecAct.force_stop, RecAct.begin]).fst) ≤ 1
      ∧ (([RecAct.begin, RecAct.force_stop, RecAct.begin] : List RecAct).getLast? = some RecAct.begin →
          (recRun [RecAct.begin, RecAct.force_stop, RecAct.begin]).snd.count
            ((recRun [RecAct.begin, RecAct.force_stop, RecAct.begin]).fst) = 1
          ∧ (recRun [RecAct.begin, RecAct.force_stop, RecAct.begin]).snd.getLast?
              = some ((recRun [RecAct.begin, RecAct.force_stop, RecAct.begin]).fst))
      ∧ (([RecAct.begin, RecAct.force_stop, RecAct.begin] : List RecAct).getLast? = some RecAct.force_stop →
          (recRun [RecAct.begin, RecAct.force_stop, RecAct.begin]).snd.count
            ((recRun [RecAct.begin, RecAct.force_stop, RecAct.begin]).fst) = 0)) :=
  ⟨by decide, claim_C4 [RecAct.begin, RecAct.force_stop, RecAct.begin] (by decide)⟩

/-- C5: `cancel_listening` advances the recording generation and writes
the vacated (pre-increment) generation into the cancellation marker; a
session whose token is at most the marker when its capture worker exits
returns the empty string without transcribing, a session whose token is
strictly greater is unaffected and proceeds to transcription, and in
particular a session begun after the cancel (in the non-wrapping range)
mints a token strictly above the marker and transcribes. -/
theorem claim_C5 (s : RecState) (tok : Int) (transcript : String) :
    cancel_listening s = ⟨i64wrap (s.counter + 1), s.counter⟩
    ∧ (tok ≤ s.canceled → session_result tok s transcript = ""
        ∧ session_transcribes tok s = false)
    ∧ (s.canceled < tok → session_result tok s transcript = transcript
        ∧ session_transcribes tok s = true)
    ∧ (-9223372036854775808 ≤ s.counter → s.counter + 2 < 9223372036854775808 →
        (cancel_listening s).canceled < (start_listening_begin (cancel_listening s)).fst
        ∧ session_result (start_listening_begin (cancel_listening s)).fst
            (start_listening_begin (cancel_listening s)).snd transcript = transcript) := by
  refine ⟨rfl, ?_, ?_, ?_⟩
  · intro hle
    simp [session_result, session_transcribes, hle]
  · intro hlt
    simp [session_result, session_transcribes, not_le.mpr hlt]
  · intro hlo hhi
    have w1 : i64wrap (s.counter + 1) = s.counter + 1 :=
      i64wrap_eq_self (by omega) (by omega)
    have w2 : i64wrap (s.counter + 1 + 1) = s.counter + 2 := by
      rw [show s.counter + 1 + 1 = s.counter + 2 from by ring]
      exact i64wrap_eq_self (by omega) (by omega)
    constructor
    · simp only [cancel_listening, start_listening_begin, w1, w2]
      omega
    · simp only [cancel_listening, start_listening_begin, w1, w2, session_result]
      rw [if_neg (by omega)]

/-- Witness for `claim_C5`: a canceled session at marker 1 skips, and a
fresh begin after a cancel from the initial state proceeds. -/
theorem claim_C5_witness :
    ((1 : Int) ≤ ((1 : Int)))
    ∧ (session_result 1 ⟨2, 1⟩ "hi" = "" ∧ session_transcribes 1 ⟨2, 1⟩ = false)
    ∧ (((-9223372036854775808 : Int) ≤ (0 : Int)) ∧ ((0 : Int) + 2 < 9223372036854775808))
    ∧ ((cancel_listening ⟨0, -1⟩).canceled < (start_listening_begin (cancel_listening ⟨0, -1⟩)).fst
        ∧ session_result (start_listening_begin (cancel_listening ⟨0, -1⟩)).fst
            (start_listening_begin (cancel_listening ⟨0, -1⟩)).snd "hi" = "hi") :=
  ⟨by decide, (claim_C5 ⟨2, 1⟩ 1 "hi").2.1 (by decide), ⟨by decide, by decide⟩,
    (claim_C5 ⟨0, -1⟩ 1 "hi").2.2.2 (by decide) (by decide)⟩

/-- `update_input_loudness` (main.rs:499-505): accumulate `x*x / len` over
the frame and take the square root.  The `f32` arithmetic is modelled over
`ℚ`, with `Rat.sqrt` standing in for `f32::sqrt`. -/
def rmsAmplitude (samples : List ℚ) : ℚ :=
  Rat.sqrt (samples.foldl (fun acc x => acc + x * x / (samples.length : ℚ)) 0)

/-- The telemetry writes of one `start_listening` session in order
(main.rs:469-552): `0.0` is stored at entry, one RMS value per captured
frame while the worker holds authority, and after the worker exits the
cancel test at main.rs:548 runs BEFORE the `-1` store at main.rs:552 —
a canceled session returns without ever writing `-1`.  The boolean
records whether the transcription request is issued. -/
def start_listening_session (frames : List (List ℚ)) (precedence marker : Int) :
    List ℚ × Bool :=
  if precedence ≤ marker then (0 :: frames.map rmsAmplitude, false)
  else ((0 :: frames.map rmsAmplitude) ++ [-1], true)

theorem rmsAmplitude_nonneg (f : List ℚ) : 0 ≤ rmsAmplitude f :=
  Rat.sqrt_nonneg _

/-- C9 (amended): every session's telemetry starts with the 0.0 reset,
every written value is either an RMS amplitude (which is nonnegative) or
the -1 sentinel, and for a session that is not canceled the -1 sentinel
is written exactly once, after capture ends and before transcription; a
canceled session never writes -1 and issues no transcription, leaving the
last amplitude in place until the next session's reset. -/
theorem claim_C9 (frames : List (List ℚ)) (tok marker : Int) :
    (start_listening_session frames tok marker).fst.head? = some 0
    ∧ (∀ v ∈ (start_listening_session frames tok marker).fst, v = -1 ∨ 0 ≤ v)
    ∧ (∀ f, 0 ≤ rmsAmplitude f)
    ∧ (marker < tok →
        (start_listening_session frames tok marker).fst
            = (0 :: frames.map rmsAmplitude) ++ [-1]
        ∧ (start_listening_session frames tok marker).snd = true)
    ∧ (tok ≤ marker →
        (start_listening_session frames tok marker).fst = 0 :: frames.map rmsAmplitude
        ∧ (start_listening_session frames tok marker).snd = false) := by
  refine ⟨?_, ?_, rmsAmplitude_nonneg, ?_, ?_⟩
  · unfold start_listening_session
    split <;> rfl
  · intro v hv
    unfold start_listening_session at hv
    split at hv <;> simp at hv
    · rcases hv with h0 | ⟨f, _, hf⟩
      · right; rw [h0]
      · right; rw [← hf]; exact rmsAmplitude_nonneg f
    · rcases hv with h0 | ⟨f, _, hf⟩ | hneg
      · right; rw [h0]
      · right; rw [← hf]; exact rmsAmplitude_nonneg f
      · left; rw [hneg]
  · intro h
    unfold start_listening_session
    rw [if_neg (not_le.mpr h)]
    exact ⟨rfl, rfl⟩
  · intro h
    unfold start_listening_session
    rw [if_pos h]
    exact ⟨rfl, rfl⟩

/-- Counterexample to C9 as stated: a session begun at generation 1 and
then canceled (marker 1) ends capture with telemetry still 0.0 — the cell
is never set to -1 for that session, because `start_listening` returns at
main.rs:549 before the -1 store at main.rs:552. -/
theorem claim_C9_counterexample :
    (start_listening_begin initRecState).fst = 1
    ∧ (cancel_listening (start_listening_begin initRecState).snd).canceled = 1
    ∧ (start_listening_session [] 1 1).fst = [0]
    ∧ (-1 : ℚ) ∉ (start_listening_session [] 1 1).fst
    ∧ (start_listening_session [] 1 1).snd = false :=
  ⟨by decide, by decide, by decide, by decide, by decide⟩

/-- Witness for `claim_C9` on one two-sample frame. -/
theorem claim_C9_witness :
    ((0 : Int) < (1 : Int))
    ∧ ((1 : Int) ≤ (1 : Int))
    ∧ (start_listening_session [[1, 2]] 1 0).fst.head? = some 0
    ∧ ((start_listening_session [[1, 2]] 1 0).fst
          = (0 :: ([[1, 2]] : List (List ℚ)).map rmsAmplitude) ++ [-1]
      ∧ (start_listening_session [[1, 2]] 1 0).snd = true)
    ∧ ((start_listening_session [[1, 2]] 1 1).fst
          = 0 :: ([[1, 2]] : List (List ℚ)).map rmsAmplitude
      ∧ (start_listening_session [[1, 2]] 1 1).snd = false) :=
  ⟨by decide, by decide, (claim_C9 [[1, 2]] 1 0).1,
    (claim_C9 [[1, 2]] 1 0).2.2.2.1 (by decide),
    (claim_C9 [[1, 2]] 1 1).2.2.2.2 (by decide)⟩

/-- Abstract effects of `speak_azure` and its beep coordinator thread
(main.rs:306-338).  `setOwnSinkVolume` is the coordinator's only action —
a write to its private output sink; the other constructors are the
request's own milestones. -/
inductive Eff where
  | spawnBeep
  | fetchSettled (ok : Bool)
  | sendStopSignal
  | setOwnSinkVolume (v : ℚ)
  | playAudioShared
  | returnOk
  | returnErr
  deriving Repr, DecidableEq

/-- The effect trace of one `speak_azure` call (main.rs:265-339): an early
return when `no_cache && pre_fetch`, a cache hit plays without spawning the
beep thread, and otherwise the beep thread is spawned, the TTS fetch
settles, and the one-shot stop signal is sent on both the `Err` and the
`Ok` path before returning. -/
def speak_azure_trace (pre_fetch no_cache cache_hit fetch_ok : Bool) : List Eff :=
  if no_cache && pre_fetch then [Eff.returnOk]
  else if cache_hit then
    (if pre_fetch then [] else [Eff.playAudioShared]) ++ [Eff.returnOk]
  else
    Eff.spawnBeep :: Eff.fetchSettled fetch_ok ::
      (if fetch_ok then
        Eff.sendStopSignal :: ((if pre_fetch then [] else [Eff.playAudioShared]) ++ [Eff.returnOk])
      else [Eff.sendStopSignal, Eff.returnErr])

/-- Result of one `receiver.try_recv()` poll in the beep loop
(main.rs:314): `Err(Empty)` continues, anything else breaks. -/
inductive TryRecvOutcome where
  | empty
  | received
  | disconnected
  deriving Repr, DecidableEq

/-- The beep coordinator loop (main.rs:312-321), driven by the sequence of
`try_recv` outcomes it observes: while `Err(Empty)`, it writes one
duty-cycled volume to its own sink and sleeps; on any other outcome it
breaks.  Returns the effect list and whether the loop exited. -/
def beepLoop (beep_volume : ℚ) : List TryRecvOutcome → Nat → List Eff × Bool
  | [], _ => ([], false)
  | TryRecvOutcome.empty :: rest, i =>
    (Eff.setOwnSinkVolume ((if i % 5 = 0 then (1 : ℚ)/2 else 0) * beep_volume)
        :: (beepLoop beep_volume rest (i + 1)).fst,
      (beepLoop beep_volume rest (i + 1)).snd)
  | _ :: _, _ => ([], true)

/-- The whole coordinator thread (main.rs:307-322): the initial volume
write, then the loop. -/
def beepThread (beep_volume : ℚ) (obs : List TryRecvOutcome) : List Eff × Bool :=
  (Eff.setOwnSinkVolume (1/2 * beep_volume) :: (beepLoop beep_volume obs 0).fst,
    (beepLoop beep_volume obs 0).snd)

/-- If the signal (any non-Empty outcome: a sent `()` or a disconnect)
arrives after `k` empty polls, the loop exits right there, having
performed exactly `k` private volume writes and nothing else. -/
theorem beepLoop_signal (bv : ℚ) (k : Nat) (rest : List TryRecvOutcome)
    (sig : TryRecvOutcome) (hsig : sig ≠ TryRecvOutcome.empty) : ∀ i : Nat,
    (beepLoop bv (List.replicate k TryRecvOutcome.empty ++ sig :: rest) i).snd = true
    ∧ (beepLoop bv (List.replicate k TryRecvOutcome.empty ++ sig :: rest) i).fst.length = k
    ∧ ∀ e ∈ (beepLoop bv (List.replicate k TryRecvOutcome.empty ++ sig :: rest) i).fst,
        ∃ v, e = Eff.setOwnSinkVolume v := by
  induction k with
  | zero =>
    intro i
    simp only [List.replicate, List.nil_append]
    cases sig with
    | empty => exact absurd rfl hsig
    | received =>
      exact ⟨rfl, rfl, fun e he => absurd he (List.not_mem_nil e)⟩
    | disconnected =>
      exact ⟨rfl, rfl, fun e he => absurd he (List.not_mem_nil e)⟩
  | succ k ih =>
    intro i
    obtain ⟨ih1, ih2, ih3⟩ := ih (i + 1)
    rw [List.replicate_succ, List.cons_append]
    refine ⟨ih1, ?_, ?_⟩
    · show ((Eff.setOwnSinkVolume _) :: (beepLoop bv _ (i + 1)).fst).length = k + 1
      rw [List.length_cons, ih2]
    · intro e he
      rcases List.mem_cons.mp he with h0 | hm
      · exact ⟨_, h0⟩
      · exact ih3 e hm

/-- C6: whenever `speak_azure` spawns the beep coordinator, the stop
signal is sent exactly once, immediately when the TTS fetch settles
(success or failure) and never earlier or again; the coordinator exits at
its first observation of the signal, and every effect it ever performs is
a write to its own private sink — no shared state is mutated. -/
theorem claim_C6 (pre_fetch no_cache cache_hit fetch_ok : Bool) (bv : ℚ) (k : Nat)
    (rest : List TryRecvOutcome) (sig : TryRecvOutcome)
    (hspawn : Eff.spawnBeep ∈ speak_azure_trace pre_fetch no_cache cache_hit fetch_ok)
    (hsig : sig ≠ TryRecvOutcome.empty) :
    (∃ tail, speak_azure_trace pre_fetch no_cache cache_hit fetch_ok
        = Eff.spawnBeep :: Eff.fetchSettled fetch_ok :: Eff.sendStopSignal :: tail
      ∧ Eff.sendStopSignal ∉ tail)
    ∧ (beepThread bv (List.replicate k TryRecvOutcome.empty ++ sig :: rest)).snd = true
    ∧ (beepThread bv (List.replicate k TryRecvOutcome.empty ++ sig :: rest)).fst.length = k + 1
    ∧ (∀ e ∈ (beepThread bv (List.replicate k TryRecvOutcome.empty ++ sig :: rest)).fst,
        ∃ v, e = Eff.setOwnSinkVolume v) := by
  obtain ⟨hsnd, hlen, hall⟩ := beepLoop_signal bv k rest sig hsig 0
  refine ⟨?_, hsnd, ?_, ?_⟩
  · cases no_cache <;> cases pre_fetch <;> cases cache_hit <;> cases fetch_ok <;>
      first
        | exact absurd hspawn (by decide)
        | exact ⟨_, rfl, by decide⟩
  · show (Eff.setOwnSinkVolume _ :: (beepLoop bv _ 0).fst).length = k + 1
    rw [List.length_cons, hlen]
  · intro e he
    rcases List.mem_cons.mp he with h0 | hm
    · exact ⟨_, h0⟩
    · exact hall e hm

/-- Witness for `claim_C6`: a cache-missing non-prefetch call with a
successful fetch, and a signal observed after one empty poll. -/
theorem claim_C6_witness :
    Eff.spawnBeep ∈ speak_azure_trace false false false true
    ∧ TryRecvOutcome.received ≠ TryRecvOutcome.empty
    ∧ ((∃ tail, speak_azure_trace false false false true
          = Eff.spawnBeep :: Eff.fetchSettled true :: Eff.sendStopSignal :: tail
        ∧ Eff.sendStopSignal ∉ tail)
      ∧ (beepThread 1 (List.replicate 1 TryRecvOutcome.empty ++ TryRecvOutcome.received :: [])).snd = true
      ∧ (beepThread 1 (List.replicate 1 TryRecvOutcome.empty ++ TryRecvOutcome.received :: [])).fst.length = 1 + 1
      ∧ (∀ e ∈ (beepThread 1 (List.replicate 1 TryRecvOutcome.empty ++ TryRecvOutcome.received :: [])).fst,
          ∃ v, e = Eff.setOwnSinkVolume v)) :=
  ⟨by decide, by decide,
    claim_C6 false false false true 1 1 [] TryRecvOutcome.received (by decide) (by decide)⟩
